import Mathlib

/-!
Verification development for the Lead Bringer email-offer pipeline.

The Python sources are shallowly embedded below:
- string and character helpers model the Python primitives used by the
  pipeline (str.strip, str.lower, str.casefold on ASCII data, str.replace,
  substring containment, int parsing);
- an executable MD5 implementation models hashlib.md5, used for the
  message-identity fallback and for image filenames;
- the three extraction regular expressions (PRICE_RGX, QTY_RGX, FOB_RGX)
  and the subject-cleaning regular expression are embedded as recursive
  search functions that reproduce the leftmost-match backtracking
  semantics of re.search on these particular patterns;
- the pipeline state machine of EmailOfferPipeline.process is embedded as
  a fold over the list of input files, with the in-memory seen set, the
  persisted seen ledger, the insertion-ordered candidate map and the list
  of written image files made explicit.
-/

namespace LeadBringer

/-! ### Character and string helpers -/

/-- Whitespace characters recognized by the Python regular-expression
class and by str.strip for the ASCII inputs the pipeline handles. -/
def isPyWs (c : Char) : Bool :=
  c == ' ' || c == '\t' || c == '\n' || c == '\r' ||
  c == Char.ofNat 11 || c == Char.ofNat 12

/-- Strip whitespace from both ends of a character list (str.strip). -/
def pyStripL (l : List Char) : List Char :=
  ((l.dropWhile isPyWs).reverse.dropWhile isPyWs).reverse

/-- str.strip on strings. -/
def pyStrip (s : String) : String := String.mk (pyStripL s.data)

/-- Substring containment on character lists (the Python in operator). -/
def isSubL : List Char → List Char → Bool
  | n, [] => n.isEmpty
  | n, h :: rest => List.isPrefixOf n (h :: rest) || isSubL n rest

/-- Substring containment on strings: strContains hay needle. -/
def strContains (hay needle : String) : Bool := isSubL needle.data hay.data

/-- ASCII lowercasing of a string (models str.lower and str.casefold on
the ASCII header and body data the pipeline handles). -/
def lowerS (s : String) : String := String.mk (s.data.map Char.toLower)

/-- Case-insensitive prefix test against a lowercase pattern. -/
def startsWithCI (l : List Char) (w : List Char) : Bool :=
  List.isPrefixOf w ((l.take w.length).map Char.toLower)

/-- Remove every occurrence of the two-character sequence px, scanning
left to right (the Python expression value.replace with px and the empty
string). -/
def replacePx : List Char → List Char
  | [] => []
  | 'p' :: 'x' :: rest => replacePx rest
  | c :: rest => c :: replacePx rest

/-- str.replace of px by the empty string, on strings. -/
def replacePxS (s : String) : String := String.mk (replacePx s.data)

/-- Digit list to numeric value. -/
def digitsVal (l : List Char) : Nat :=
  l.foldl (fun a c => a * 10 + (c.toNat - 48)) 0

/-- The Python int constructor on strings: strip whitespace, optional
sign, then a nonempty run of decimal digits; anything else raises, which
is modelled as none. -/
def parsePyInt (s : String) : Option Int :=
  match pyStripL s.data with
  | [] => none
  | '+' :: ds => if ds ≠ [] ∧ ds.all Char.isDigit then some (digitsVal ds) else none
  | '-' :: ds => if ds ≠ [] ∧ ds.all Char.isDigit then some (-(digitsVal ds : Int)) else none
  | ds => if ds.all Char.isDigit then some (digitsVal ds) else none

/-! ### MD5 (models hashlib.md5, hexdigest output) -/

/-- The 64 sine-derived MD5 round constants. -/
def md5K : List Nat :=
  [3614090360, 3905402710, 606105819, 3250441966, 4118548399, 1200080426,
   2821735955, 4249261313, 1770035416, 2336552879, 4294925233, 2304563134,
   1804603682, 4254626195, 2792965006, 1236535329, 4129170786, 3225465664,
   643717713, 3921069994, 3593408605, 38016083, 3634488961, 3889429448,
   568446438, 3275163606, 4107603335, 1163531501, 2850285829, 4243563512,
   1735328473, 2368359562, 4294588738, 2272392833, 1839030562, 4259657740,
   2763975236, 1272893353, 4139469664, 3200236656, 681279174, 3936430074,
   3572445317, 76029189, 3654602809, 3873151461, 530742520, 3299628645,
   4096336452, 1126891415, 2878612391, 4237533241, 1700485571, 2399980690,
   4293915773, 2240044497, 1873313359, 4264355552, 2734768916, 1309151649,
   4149444226, 3174756917, 718787259, 3951481745]

/-- The per-round left-rotation amounts. -/
def md5S : List Nat :=
  [7, 12, 17, 22, 7, 12, 17, 22, 7, 12, 17, 22, 7, 12, 17, 22,
   5, 9, 14, 20, 5, 9, 14, 20, 5, 9, 14, 20, 5, 9, 14, 20,
   4, 11, 16, 23, 4, 11, 16, 23, 4, 11, 16, 23, 4, 11, 16, 23,
   6, 10, 15, 21, 6, 10, 15, 21, 6, 10, 15, 21, 6, 10, 15, 21]

/-- 32-bit left rotation on naturals below 2 to the 32. -/
def rotl32 (x n : Nat) : Nat :=
  ((x <<< n) % 4294967296) ||| (x >>> (32 - n))

/-- 32-bit bitwise complement. -/
def not32 (x : Nat) : Nat := 4294967295 - x

/-- The MD5 round mixing function, selected by round index. -/
def md5F (i b c d : Nat) : Nat :=
  if i < 16 then (b &&& c) ||| (not32 b &&& d)
  else if i < 32 then (d &&& b) ||| (not32 d &&& c)
  else if i < 48 then b ^^^ c ^^^ d
  else c ^^^ (b ||| not32 d)

/-- The MD5 message-word index schedule. -/
def md5G (i : Nat) : Nat :=
  if i < 16 then i
  else if i < 32 then (5 * i + 1) % 16
  else if i < 48 then (3 * i + 5) % 16
  else (7 * i) % 16

/-- Running state of the MD5 compression function. -/
structure MD5State where
  a : Nat
  b : Nat
  c : Nat
  d : Nat
deriving DecidableEq

/-- MD5 initialisation vector. -/
def md5Init : MD5State := ⟨1732584193, 4023233417, 2562383102, 271733878⟩

/-- One of the 64 MD5 rounds over the 16 message words M. -/
def md5Round (M : List Nat) (st : MD5State) (i : Nat) : MD5State :=
  let f := (md5F i st.b st.c st.d + st.a + md5K.getD i 0 + M.getD (md5G i) 0) % 4294967296
  ⟨st.d, (st.b + rotl32 f (md5S.getD i 0)) % 4294967296, st.b, st.c⟩

/-- Little-endian byte serialisation of a natural, k bytes. -/
def lebytes : Nat → Nat → List Nat
  | 0, _ => []
  | k + 1, n => (n % 256) :: lebytes k (n / 256)

/-- Group bytes into little-endian 32-bit words. -/
def toWords : List Nat → List Nat
  | b0 :: b1 :: b2 :: b3 :: rest =>
    (b0 + 256 * b1 + 65536 * b2 + 16777216 * b3) :: toWords rest
  | _ => []

/-- MD5 padding: the 0x80 byte, zeros to 56 mod 64, then the bit length
as eight little-endian bytes. -/
def padMsg (bytes : List Nat) : List Nat :=
  let msg := bytes.map (· % 256)
  let L := msg.length
  let z := (120 - ((L + 1) % 64)) % 64
  msg ++ [128] ++ List.replicate z 0 ++ lebytes 8 ((8 * L) % 18446744073709551616)

/-- Split a byte list into chunks of 64; the first argument is fuel,
always instantiated with the length of the list. -/
def chunksAux : Nat → List Nat → List (List Nat)
  | 0, _ => []
  | _, [] => []
  | fuel + 1, b :: rest => ((b :: rest).take 64) :: chunksAux fuel ((b :: rest).drop 64)

/-- Split a byte list into chunks of 64. -/
def chunks64 (l : List Nat) : List (List Nat) := chunksAux l.length l

/-- MD5 compression of one 64-byte chunk. -/
def md5Chunk (st : MD5State) (chunk : List Nat) : MD5State :=
  let M := toWords chunk
  let r := (List.range 64).foldl (md5Round M) st
  ⟨(st.a + r.a) % 4294967296, (st.b + r.b) % 4294967296,
   (st.c + r.c) % 4294967296, (st.d + r.d) % 4294967296⟩

/-- Full MD5 state for a byte string. -/
def md5Bytes (bytes : List Nat) : MD5State :=
  (chunks64 (padMsg bytes)).foldl md5Chunk md5Init

/-- Lowercase hexadecimal digit. -/
def hexNibble (n : Nat) : Char := "0123456789abcdef".data.getD n '0'

/-- Two lowercase hexadecimal digits of a byte. -/
def hexByte (n : Nat) : List Char := [hexNibble (n / 16 % 16), hexNibble (n % 16)]

/-- Hexadecimal rendering of a 32-bit word, least significant byte first,
as in the MD5 digest serialisation. -/
def wordHexLE (w : Nat) : List Char :=
  hexByte (w % 256) ++ hexByte (w / 256 % 256) ++
  hexByte (w / 65536 % 256) ++ hexByte (w / 16777216 % 256)

/-- hashlib.md5 hexdigest of a byte string. -/
def md5Hex (bytes : List Nat) : String :=
  let s := md5Bytes bytes
  String.mk (wordHexLE s.a ++ wordHexLE s.b ++ wordHexLE s.c ++ wordHexLE s.d)

set_option maxRecDepth 10000


/-! ### The extraction regular expressions

PRICE_RGX, QTY_RGX, FOB_RGX and SUBJ_CLEAN_RGX from the source are
embedded as recursive search functions reproducing the leftmost-match,
greedy-with-backtracking semantics of re.search on these patterns. -/

/-- Zero or more repetitions of a comma followed by exactly three digits,
matched greedily; returns the consumed characters and the rest. -/
def commaGroups : List Char → List Char × List Char
  | ',' :: a :: b :: c :: rest =>
    if a.isDigit && b.isDigit && c.isDigit then
      let (m, r) := commaGroups rest
      (',' :: a :: b :: c :: m, r)
    else ([], ',' :: a :: b :: c :: rest)
  | l => ([], l)

/-- The numeric part of PRICE_RGX after the currency sign: one to three
digits, then comma-separated three-digit groups, then an optional dot and
two digits.  Returns the capture group. -/
def priceDigits (l : List Char) : Option (List Char) :=
  let d1 := (l.takeWhile Char.isDigit).take 3
  if d1.isEmpty then none
  else
    let (cg, rest2) := commaGroups (l.drop d1.length)
    let dec := match rest2 with
      | '.' :: a :: b :: _ => if a.isDigit && b.isDigit then ['.', a, b] else []
      | _ => []
    some (d1 ++ cg ++ dec)

/-- After the dollar sign: an optional single whitespace (greedy, with
backtracking), then the numeric token. -/
def priceAfterDollar : List Char → Option (List Char)
  | [] => none
  | c :: rest =>
    if isPyWs c then
      match priceDigits rest with
      | some g => some g
      | none => priceDigits (c :: rest)
    else priceDigits (c :: rest)

/-- re.search for PRICE_RGX: scan for a dollar sign whose suffix matches;
on failure resume the scan one position further. -/
def priceSearchL : List Char → Option (List Char)
  | [] => none
  | '$' :: rest =>
    (match priceAfterDollar rest with
     | some g => some g
     | none => priceSearchL rest)
  | _ :: rest => priceSearchL rest

/-- Case-insensitive unit-token test of QTY_RGX: sqft, sf, pcs or ctn
with an optional trailing s (the optional s never affects success). -/
def unitAt (l : List Char) : Bool :=
  startsWithCI l "sqft".data || startsWithCI l "sf".data ||
  startsWithCI l "pcs".data || startsWithCI l "ctn".data

/-- The part of QTY_RGX after the leading digits: an optional comma group
(greedy, with backtracking), whitespace, then a unit token.  The first
argument is the digit capture so far; returns the full capture group. -/
def qtyTail (consumed : List Char) (after : List Char) : Option (List Char) :=
  let withComma : Option (List Char) :=
    match after with
    | ',' :: a :: b :: c :: rest =>
      if a.isDigit && b.isDigit && c.isDigit && unitAt (rest.dropWhile isPyWs) then
        some (consumed ++ [',', a, b, c])
      else none
    | _ => none
  match withComma with
  | some g => some g
  | none => if unitAt (after.dropWhile isPyWs) then some consumed else none

/-- Greedy backtracking over the digit-count of QTY_RGX, from the given
length down to two digits. -/
def qtyLens : Nat → List Char → List Char → Option (List Char)
  | 0, _, _ => none
  | 1, _, _ => none
  | len + 2, run, rest0 =>
    match qtyTail (run.take (len + 2)) (run.drop (len + 2) ++ rest0) with
    | some g => some g
    | none => qtyLens (len + 1) run rest0

/-- re.search for QTY_RGX: at each digit position, try digit counts from
min six down to two. -/
def qtySearchL : List Char → Option (List Char)
  | [] => none
  | c :: rest =>
    if c.isDigit then
      let run := (c :: rest).takeWhile Char.isDigit
      match qtyLens (min 6 run.length) run ((c :: rest).drop run.length) with
      | some g => some g
      | none => qtySearchL rest
    else qtySearchL rest

/-- The capture class of FOB_RGX: ASCII letters and the space. -/
def fobClass (c : Char) : Bool := c.isAlpha || c == ' '

/-- Greedy backtracking over the whitespace consumed before the FOB
capture: try k whitespace characters, then capture up to forty class
characters, needing at least two. -/
def fobTryK (l : List Char) : Nat → Option (List Char)
  | 0 =>
    let capt := (l.takeWhile fobClass).take 40
    if 2 ≤ capt.length then some capt else none
  | k + 1 =>
    let capt := ((l.drop (k + 1)).takeWhile fobClass).take 40
    if 2 ≤ capt.length then some capt else fobTryK l k

/-- After the FOB marker: an optional colon or dash, whitespace, then the
capture. -/
def fobAfterMarker (l : List Char) : Option (List Char) :=
  let l2 := match l with
    | c :: rest => if c == ':' || c == '-' then rest else c :: rest
    | [] => []
  fobTryK l2 (l2.takeWhile isPyWs).length

/-- Word characters for the word-boundary assertion. -/
def isWordC (c : Char) : Bool := c.isAlpha || c.isDigit || c == '_'

/-- re.search for FOB_RGX: scan for the case-insensitive marker fob at a
word boundary; the previous character is threaded through the scan. -/
def fobSearchAux : Option Char → List Char → Option (List Char)
  | _, [] => none
  | prev, c :: rest =>
    let bOk := match prev with
      | none => true
      | some p => !(isWordC p)
    if bOk && startsWithCI (c :: rest) "fob".data then
      match fobAfterMarker ((c :: rest).drop 3) with
      | some g => some g
      | none => fobSearchAux (some c) rest
    else fobSearchAux (some c) rest

/-- The helper EmailOfferPipeline._m specialised to each pattern: group
one of the first match, stripped, or the empty string when there is no
match.  All three patterns have a mandatory group one. -/
def mPrice (t : String) : String :=
  match priceSearchL t.data with
  | some g => String.mk (pyStripL g)
  | none => ""

/-- Quantity extraction via QTY_RGX and _m. -/
def mQty (t : String) : String :=
  match qtySearchL t.data with
  | some g => String.mk (pyStripL g)
  | none => ""

/-- FOB-location extraction via FOB_RGX and _m. -/
def mFob (t : String) : String :=
  match fobSearchAux none t.data with
  | some g => String.mk (pyStripL g)
  | none => ""


/-! ### Subject cleaning and category classification -/

/-- SUBJ_CLEAN_RGX.sub: remove one leading reply or forward marker,
case-insensitively, together with the whitespace that follows it.  The
regular expression is anchored, so at most one marker is removed. -/
def dropMarker (l : List Char) : List Char :=
  if startsWithCI l "re:".data then (l.drop 3).dropWhile isPyWs
  else if startsWithCI l "fw:".data then (l.drop 3).dropWhile isPyWs
  else if startsWithCI l "fwd:".data then (l.drop 4).dropWhile isPyWs
  else l

/-- EmailOfferPipeline._clean_subj: marker removal, casefold, strip. -/
def cleanSubj (s : String) : String :=
  String.mk (pyStripL ((dropMarker s.data).map Char.toLower))


/-- EmailOfferPipeline._cat: first-match keyword scan over the lowercased
concatenation of subject and body. -/
def catOf (sub body : String) : String :=
  let t := lowerS (sub ++ " " ++ body)
  if strContains t "spc" then "SPC Flooring"
  else if strContains t "lvt" then "LVT Flooring"
  else if strContains t "laminate" then "Laminate Flooring"
  else if strContains t "tile" then "Tile"
  else if strContains t "solid" && strContains t "hardwood" then "Solid Hardwood"
  else "Other"


/-! ### The MIME data model

A message is a list of parts as enumerated by msg.walk, together with the
header values the pipeline reads.  A part carries the decoded payload in
two views: textPayload is the value of get_payload with decode followed
by bytes.decode with errors ignored (none models a raised exception, as
for a missing payload), and bytesPayload is the raw decoded bytes used on
the image path (none models a None payload). -/

structure EmailPart where
  ctype : String
  disposition : Option String
  textPayload : Option String
  bytesPayload : Option (List Nat)
  contentId : Option String
deriving DecidableEq

/-- Header data of one parsed message.  dateRaw is the raw Date header
with the empty default; dateParsed is the result of
email.utils.parsedate_to_datetime on dateRaw, with none for a missing or
unparseable date, and valid timestamps mapped injectively and
monotonically to naturals.  fromAddr is the address part of the From
header as returned by parseaddr. -/
structure EmailMsg where
  messageId : Option String
  subject : Option String
  dateRaw : String
  dateParsed : Option Nat
  fromAddr : String
  parts : List EmailPart
deriving DecidableEq

/-- One source eml file: the parsed message, the filename stem used as
subject fallback, and the raw file bytes used for the identity fallback.
failAt injects an exception into the per-message try block at one of the
three observable points, modelling MessageProcessingFailure; none means
the message processes normally. -/
inductive FailStage
  | identity
  | build
  | persist
deriving DecidableEq

structure EmlFile where
  msg : EmailMsg
  stem : String
  rawBytes : List Nat
  failAt : Option FailStage
deriving DecidableEq

/-- EmailOfferPipeline._msg_id: the Message-ID header if it is present
and nonempty (Python truthiness), else the angle-bracketed MD5 of the
raw file bytes. -/
def msgIdOf (f : EmlFile) : String :=
  match f.msg.messageId with
  | some s => if s = "" then "<" ++ md5Hex f.rawBytes ++ ">" else s
  | none => "<" ++ md5Hex f.rawBytes ++ ">"

/-- The subject fallback in process: the Subject header if present and
nonempty, else the filename stem. -/
def subjOf (f : EmlFile) : String :=
  match f.msg.subject with
  | some s => if s = "" then f.stem else s
  | none => f.stem

/-- EmailOfferPipeline._as_dt under the embedding of timestamps:
a missing or unparseable date becomes datetime.min, modelled as zero,
and every valid parsed timestamp is strictly later, modelled as the
successor. -/
def asDt : Option Nat → Nat
  | none => 0
  | some d => d + 1

/-! ### Body extraction -/

/-- Skip one markup tag: drop until the closing angle bracket. -/
def dropTag (l : List Char) : List Char :=
  (l.dropWhile (fun c => !(c == '>'))).drop 1

/-- Text segments of an html document outside markup tags.  The first
argument is fuel, always instantiated with the length of the list; the
second accumulates the current segment reversed. -/
def textSegsAux : Nat → List Char → List Char → List (List Char)
  | 0, acc, _ => [acc.reverse]
  | _, acc, [] => [acc.reverse]
  | fuel + 1, acc, c :: rest =>
    if c == '<' then acc.reverse :: textSegsAux fuel [] (dropTag rest)
    else textSegsAux fuel (c :: acc) rest

/-- BeautifulSoup get_text with a space separator and stripping: the text
segments outside tags, each stripped, empty segments dropped, joined by
single spaces. -/
def getText (html : String) : String :=
  let segs := (textSegsAux html.data.length [] html.data).map pyStripL
  String.intercalate " " ((segs.filter (fun s => !s.isEmpty)).map String.mk)


/-- The part-walking loop of EmailOfferPipeline._body, threading the
html and plain accumulators: parts whose disposition mentions attachment
are skipped; the first text/html part and the first text/plain part that
decode assign the respective accumulator while it is still empty; a part
whose decoding raises is skipped. -/
def bodyScan : String → String → List EmailPart → String × String
  | html, plain, [] => (html, plain)
  | html, plain, p :: rest =>
    let cd := p.disposition.getD "None"
    if strContains cd "attachment" then bodyScan html plain rest
    else if p.ctype = "text/html" ∧ html = "" then
      match p.textPayload with
      | some s => bodyScan s plain rest
      | none => bodyScan html plain rest
    else if p.ctype = "text/plain" ∧ plain = "" then
      match p.textPayload with
      | some s => bodyScan html s rest
      | none => bodyScan html plain rest
    else bodyScan html plain rest

/-- EmailOfferPipeline._body: walk the parts, then return the stripped
html body if one was found (Python truthiness), else the plain body. -/
def bodyOf (m : EmailMsg) : String :=
  let hp := bodyScan "" "" m.parts
  if hp.1 ≠ "" then getText hp.1 else hp.2

/-! ### Image saving -/

/-- get_content_maintype: the declared content type up to the slash. -/
def maintypeOf (ctype : String) : String :=
  String.mk (ctype.data.takeWhile (fun c => !(c == '/')))

/-- mimetypes.guess_extension restricted to the image content types the
pipeline encounters; none for unknown types. -/
def guessExtension (ct : String) : Option String :=
  if ct = "image/jpeg" then some ".jpg"
  else if ct = "image/png" then some ".png"
  else if ct = "image/gif" then some ".gif"
  else if ct = "image/bmp" then some ".bmp"
  else if ct = "image/webp" then some ".webp"
  else if ct = "image/tiff" then some ".tiff"
  else if ct = "image/svg+xml" then some ".svg"
  else none

/-- str.strip with the angle-bracket character set: remove every leading
and trailing angle bracket. -/
def stripAngles (s : String) : String :=
  let angle : Char → Bool := fun c => c == '<' || c == '>'
  String.mk (((s.data.dropWhile angle).reverse.dropWhile angle).reverse)

/-- The filename derivation of EmailOfferPipeline._save_imgs for an image
part with decoded data: the stripped Content-ID if nonempty (Python
truthiness), else the MD5 of the decoded bytes with the img prefix; the
extension is guessed from the declared content type with the binary
default. -/
def imgFilename (p : EmailPart) (data : List Nat) : String :=
  let cid := stripAngles (p.contentId.getD "")
  let ext := (guessExtension p.ctype).getD ".bin"
  if cid ≠ "" then cid ++ ext else "img_" ++ md5Hex data ++ ext

/-- EmailOfferPipeline._save_imgs: walk the parts; every part whose main
type is image and whose payload decodes to nonempty bytes contributes its
derived filename, in part order; other parts are skipped. -/
def saveImgs : List EmailPart → List String
  | [] => []
  | p :: rest =>
    if maintypeOf p.ctype = "image" then
      match p.bytesPayload with
      | some d => if d = [] then saveImgs rest else imgFilename p d :: saveImgs rest
      | none => saveImgs rest
    else saveImgs rest

/-! ### The dimension check of the image classifier -/

/-- MINIMUM_IMAGE_SIZE from LeadBringerOfferKnowledge. -/
def MINIMUM_IMAGE_SIZE : Int := 50

/-- The width and height check inside is_tracking_pixel: each attribute
value (empty default for an absent attribute) has every px occurrence
removed; an empty string defaults to 999, otherwise the value is parsed
with int, and an unparseable value aborts the whole check without
discarding (the bare except); with both values available the image is
discarded when either is below the minimum size. -/
def dimensionDiscard (width? height? : Option String) : Bool :=
  let ws := replacePxS (width?.getD "")
  let hs := replacePxS (height?.getD "")
  match (if ws = "" then some 999 else parsePyInt ws) with
  | none => false
  | some w =>
    match (if hs = "" then some 999 else parsePyInt hs) with
    | none => false
    | some h => w < MINIMUM_IMAGE_SIZE || h < MINIMUM_IMAGE_SIZE


/-! ### The offer record and the pipeline state machine -/

/-- The ProductOffer dataclass.  date_received is the raw Date header
string as stored by the source. -/
structure ProductOffer where
  title : String
  category : String
  product_description : String
  price : String
  fob_location : String
  available_quantity : String
  primary_image : String
  more_images : List String
  source_email : String
  date_received : String
  message_id : String
  status : String
deriving DecidableEq

/-- One value of the latest dictionary: the offer dictionary together
with the value of _as_dt on its date_received field, cached because
date parsing is deterministic. -/
structure Entry where
  offer : ProductOffer
  dtv : Nat
deriving DecidableEq

/-- Association-list lookup with string keys (dict.get). -/
def lookupA (k : String) : List (String × Entry) → Option Entry
  | [] => none
  | (k2, v) :: rest => if k2 = k then some v else lookupA k rest

/-- Insertion-ordered dictionary update (latest.__setitem__): replace the
value in place when the key is present, else append at the end. -/
def updateAssoc (k : String) (v : Entry) : List (String × Entry) → List (String × Entry)
  | [] => [(k, v)]
  | (k2, v2) :: rest =>
    if k2 = k then (k, v) :: rest else (k2, v2) :: updateAssoc k v rest

/-- The dedup decision of process: replace the retained entry when there
is none yet or when the new timestamp is strictly greater. -/
def stepLatest (latest : List (String × Entry)) (key : String) (e : Entry) :
    List (String × Entry) :=
  match lookupA key latest with
  | none => updateAssoc key e latest
  | some prev => if prev.dtv < e.dtv then updateAssoc key e latest else latest

/-- The offer record built in process for a non-skipped message. -/
def buildOffer (f : EmlFile) (mid : String) : ProductOffer :=
  let subj := subjOf f
  let b := bodyOf f.msg
  let imgs := saveImgs f.msg.parts
  { title := subj
    category := catOf subj b
    product_description := b
    price := mPrice b
    fob_location := mFob b
    available_quantity := mQty b
    primary_image := imgs.headD ""
    more_images := imgs.drop 1
    source_email := f.msg.fromAddr
    date_received := f.msg.dateRaw
    message_id := mid
    status := "Unreviewed" }

/-- Mutable state of one run of process: the insertion-ordered candidate
dictionary, the in-memory seen set, the persisted seen-ledger file, the
image files written so far, and the new-offers counter. -/
structure PipeState where
  latest : List (String × Entry)
  seenMem : List String
  seenFile : List String
  images : List String
  count : Nat
deriving DecidableEq

/-- One iteration of the message loop of process, per-message try block
included.  An exception at the identity stage leaves everything
unchanged; a message whose identity is in the in-memory seen set is
skipped; an exception at the build stage (body decoding through offer
construction) leaves the state unchanged; otherwise the candidate map is
updated by the dedup rule, the identity is added to the in-memory seen
set, and _save_hash persists the whole set, unless the persist stage
fails after the in-memory add. -/
def processOne (st : PipeState) (f : EmlFile) : PipeState :=
  if f.failAt = some FailStage.identity then st
  else
    let mid := msgIdOf f
    if mid ∈ st.seenMem then st
    else if f.failAt = some FailStage.build then st
    else
      let key := cleanSubj (subjOf f)
      let e : Entry := ⟨buildOffer f mid, asDt f.msg.dateParsed⟩
      let latest2 := stepLatest st.latest key e
      let imgs2 := st.images ++ saveImgs f.msg.parts
      let seen2 := st.seenMem ++ [mid]
      if f.failAt = some FailStage.persist then
        { latest := latest2, seenMem := seen2, seenFile := st.seenFile,
          images := imgs2, count := st.count }
      else
        { latest := latest2, seenMem := seen2, seenFile := seen2,
          images := imgs2, count := st.count + 1 }

/-- The message loop of process. -/
def processAll (st : PipeState) (files : List EmlFile) : PipeState :=
  files.foldl processOne st

/-- One full run of process: the ledger is loaded into the in-memory seen
set, the candidate map starts empty. -/
def runPipeline (files : List EmlFile) (ledger : List String) : PipeState :=
  processAll ⟨[], ledger, ledger, [], 0⟩ files

/-- The output artifact: nothing when no candidate survived (the run
terminates with the no-new-offers result), else the retained offer per
key in insertion order of the keys. -/
def outputOf (st : PipeState) : Option (List ProductOffer) :=
  if st.latest.isEmpty then none else some (st.latest.map (fun kv => kv.2.offer))

/-! ### Specification-side definitions

These re-state, in the words of the specification, the grouping key, the
per-group resolution policy, the set of messages that become candidates,
and the first-appearance ordering of keys; the theorems below relate the
embedded code to them. -/

/-- The dedup group key of a message: its normalized subject. -/
def keyOf (f : EmlFile) : String := cleanSubj (subjOf f)

/-- The candidate entry a message contributes to its group. -/
def entryOf (f : EmlFile) : Entry :=
  ⟨buildOffer f (msgIdOf f), asDt f.msg.dateParsed⟩

/-- The resolution policy stated by the specification: the first
candidate is retained, and a later candidate replaces the retained one
exactly when its parsed timestamp is strictly greater, so the first
encountered wins exact ties. -/
def specResolve : Option Entry → Entry → Option Entry
  | none, c => some c
  | some p, c => if p.dtv < c.dtv then some c else some p

/-- The messages of a run that become offer candidates: in scan order,
those that do not fail before candidate construction and whose identity
is not in the seen set, each candidate adding its identity to the seen
set for the rest of the scan. -/
def candFiles (seen : List String) : List EmlFile → List EmlFile
  | [] => []
  | f :: fs =>
    if f.failAt = some FailStage.identity then candFiles seen fs
    else if msgIdOf f ∈ seen then candFiles seen fs
    else if f.failAt = some FailStage.build then candFiles seen fs
    else f :: candFiles (seen ++ [msgIdOf f]) fs

/-- The candidate entries of one dedup group, in scan order. -/
def groupEntries (k : String) (seen : List String) (files : List EmlFile) : List Entry :=
  ((candFiles seen files).filter (fun f => keyOf f = k)).map entryOf

/-- The keys in order of first appearance: fold the key sequence, keeping
each key the first time it is seen. -/
def firstKeys (acc : List String) : List String → List String
  | [] => acc
  | k :: ks => if k ∈ acc then firstKeys acc ks else firstKeys (acc ++ [k]) ks

/-- The first part of the given content type, not marked as an
attachment, whose payload decodes to a nonempty string; this is the
body candidate the selection policy ends up using. -/
def firstGood (ct : String) : List EmailPart → Option String
  | [] => none
  | p :: rest =>
    if strContains (p.disposition.getD "None") "attachment" then firstGood ct rest
    else if p.ctype = ct then
      match p.textPayload with
      | some s => if s = "" then firstGood ct rest else some s
      | none => firstGood ct rest
    else firstGood ct rest

/-- The body selection policy in the words of the specification: the html
candidate, stripped of markup, if one exists, else the plain candidate,
else the empty string. -/
def specBody (parts : List EmailPart) : String :=
  match firstGood "text/html" parts with
  | some h => getText h
  | none => (firstGood "text/plain" parts).getD ""

/-- The contribution of one MIME part to the saved images: parts whose
main type is image and whose payload decodes to nonempty bytes get their
derived filename; every other part is skipped. -/
def imgKeep (p : EmailPart) : Option String :=
  if maintypeOf p.ctype = "image" then
    match p.bytesPayload with
    | some d => if d = [] then none else some (imgFilename p d)
    | none => none
  else none

/-! ### Concrete data used by witnesses and counterexamples -/

def sampleMsg : EmailMsg :=
  { messageId := some "<id1@x>", subject := some "RE: Offer",
    dateRaw := "Mon, 1 Jan 2024 10:00:00 +0000", dateParsed := some 100,
    fromAddr := "a@b.c", parts := [] }

def sampleFile : EmlFile :=
  { msg := sampleMsg, stem := "mail1", rawBytes := [1, 2, 3], failAt := none }

def noIdMsg : EmailMsg :=
  { messageId := none, subject := none, dateRaw := "", dateParsed := none,
    fromAddr := "", parts := [] }

def noIdFile : EmlFile :=
  { msg := noIdMsg, stem := "mail2", rawBytes := [1, 2, 3], failAt := none }

def emptyIdFile : EmlFile :=
  { msg := { messageId := some "", subject := none, dateRaw := "",
             dateParsed := none, fromAddr := "", parts := [] },
    stem := "m", rawBytes := [97], failAt := none }

def failFile : EmlFile :=
  { msg := noIdMsg, stem := "f", rawBytes := [7], failAt := some FailStage.build }

def cex5Msg : EmailMsg :=
  { messageId := none, subject := none, dateRaw := "", dateParsed := none,
    fromAddr := "",
    parts := [
      { ctype := "text/html", disposition := none, textPayload := some "",
        bytesPayload := none, contentId := none },
      { ctype := "text/plain", disposition := none, textPayload := some "hello",
        bytesPayload := none, contentId := none }] }

def cidPart : EmailPart :=
  { ctype := "image/png", disposition := none, textPayload := none,
    bytesPayload := some [5], contentId := some "<c1@x>" }

def cex9Part : EmailPart :=
  { ctype := "image/gif", disposition := none, textPayload := none,
    bytesPayload := some [1], contentId := some "<>" }

def emptyState : PipeState := ⟨[], [], [], [], 0⟩

/-! ### Evaluation checks

Sanity anchors evaluating the embedded functions on concrete inputs; the
expected values were cross-checked against the behaviour of the Python
functions they embed. -/

example : md5Hex [] = "d41d8cd98f00b204e9800998ecf8427e" := by decide
example : md5Hex [97, 98, 99] = "900150983cd24fb0d6963f7d28e17f72" := by decide
example : mPrice "Price: $1,250.00 FOB Los Angeles, 5000 sqft available" = "1,250.00" := by decide
example : mFob "Price: $1,250.00 FOB Los Angeles, 5000 sqft available" = "Los Angeles" := by decide
example : mQty "Price: $1,250.00 FOB Los Angeles, 5000 sqft available" = "5000" := by decide
example : mFob "FOB A" = "A" := by decide
example : mFob "xFOB NY" = "" := by decide
example : mPrice "$1234,567" = "123" := by decide
example : mPrice "$  5" = "" := by decide
example : mPrice "$ 5" = "5" := by decide
example : mQty "1234567 sqft" = "234567" := by decide
example : mQty "12,345,678 sqft" = "345,678" := by decide
example : mQty "50,000pcs" = "50,000" := by decide
example : mQty "999999999 ctn" = "999999" := by decide
example : cleanSubj "RE: re: x" = "re: x" := by decide
example : cleanSubj "FWD:   Hello  " = "hello" := by decide
example : catOf "offer" "best spc tile today" = "SPC Flooring" := by decide
example : catOf "offer" "Solid oak Hardwood" = "Solid Hardwood" := by decide
example : getText "<p>Hello <b>world</b></p>" = "Hello world" := by decide
example : getText "<div> a  b </div><div>c</div>" = "a  b c" := by decide
example : getText "no tags  here " = "no tags  here" := by decide
example : getText "" = "" := by decide
example : dimensionDiscard (some "10") (some "10") = true := by decide
example : dimensionDiscard (some "400") none = false := by decide
example : dimensionDiscard (some "40px") (some "400") = true := by decide
example : dimensionDiscard (some "abc") (some "10") = false := by decide

/-! ### Association-list lemmas -/

theorem lookupA_updateAssoc (k k2 : String) (v : Entry) (l : List (String × Entry)) :
    lookupA k2 (updateAssoc k v l) = if k2 = k then some v else lookupA k2 l := by
  induction l with
  | nil =>
    simp only [updateAssoc, lookupA]
    rcases eq_or_ne k k2 with h | h
    · simp [h]
    · simp [h, Ne.symm h]
  | cons hd tl ih =>
    obtain ⟨ke, ve⟩ := hd
    by_cases hk : ke = k
    · subst hk
      simp only [updateAssoc, if_pos rfl, lookupA]
      rcases eq_or_ne ke k2 with h | h
      · simp [h]
      · simp [h, Ne.symm h]
    · simp only [updateAssoc, if_neg hk, lookupA]
      by_cases h2 : ke = k2
      · subst h2
        simp [hk]
      · simp [h2, ih]

theorem mapFst_updateAssoc (k : String) (v : Entry) (l : List (String × Entry)) :
    (updateAssoc k v l).map Prod.fst =
      if k ∈ l.map Prod.fst then l.map Prod.fst else l.map Prod.fst ++ [k] := by
  induction l with
  | nil => simp [updateAssoc]
  | cons hd tl ih =>
    obtain ⟨ke, ve⟩ := hd
    by_cases hk : ke = k
    · subst hk; simp [updateAssoc]
    · have hk2 : ¬ k = ke := fun h => hk h.symm
      simp only [updateAssoc, if_neg hk, List.map_cons, ih, List.mem_cons, hk2,
        false_or]
      split_ifs <;> simp

theorem lookupA_eq_none_iff (k : String) (l : List (String × Entry)) :
    lookupA k l = none ↔ k ∉ l.map Prod.fst := by
  induction l with
  | nil => simp [lookupA]
  | cons hd tl ih =>
    obtain ⟨ke, ve⟩ := hd
    by_cases hk : ke = k
    · subst hk; simp [lookupA]
    · have hk2 : ¬ k = ke := fun h => hk h.symm
      simp [lookupA, hk, ih, hk2]

theorem stepLatest_lookup (l : List (String × Entry)) (k k2 : String) (e : Entry) :
    lookupA k2 (stepLatest l k e) =
      if k2 = k then specResolve (lookupA k l) e else lookupA k2 l := by
  rcases hl : lookupA k l with _ | prev
  · simp [stepLatest, hl, lookupA_updateAssoc, specResolve]
  · by_cases hdt : prev.dtv < e.dtv
    · simp [stepLatest, hl, hdt, lookupA_updateAssoc, specResolve]
    · rcases eq_or_ne k2 k with h | h
      · subst h; simp [stepLatest, hl, hdt, specResolve]
      · simp [stepLatest, hl, hdt, specResolve, h]

theorem stepLatest_mapFst (l : List (String × Entry)) (k : String) (e : Entry) :
    (stepLatest l k e).map Prod.fst =
      if k ∈ l.map Prod.fst then l.map Prod.fst else l.map Prod.fst ++ [k] := by
  rcases hl : lookupA k l with _ | prev
  · have hnm : k ∉ l.map Prod.fst := (lookupA_eq_none_iff k l).mp hl
    simp [stepLatest, hl, mapFst_updateAssoc, hnm]
  · have hmem : k ∈ l.map Prod.fst := by
      by_contra hmem
      have h0 := (lookupA_eq_none_iff k l).mpr hmem
      rw [hl] at h0
      exact Option.noConfusion h0
    by_cases hdt : prev.dtv < e.dtv
    · simp [stepLatest, hl, hdt, mapFst_updateAssoc, hmem]
    · simp [stepLatest, hl, hdt, hmem]

theorem firstKeys_sub (acc : List String) (ks : List String) :
    ∀ x ∈ acc, x ∈ firstKeys acc ks := by
  induction ks generalizing acc with
  | nil => simp [firstKeys]
  | cons k ks ih =>
    intro x hx
    unfold firstKeys
    split_ifs with hk
    · exact ih acc x hx
    · exact ih (acc ++ [k]) x (by simp [hx])

theorem firstKeys_nodup (acc : List String) (ks : List String) (h : acc.Nodup) :
    (firstKeys acc ks).Nodup := by
  induction ks generalizing acc with
  | nil => simpa [firstKeys]
  | cons k ks ih =>
    unfold firstKeys
    split_ifs with hk
    · exact ih acc h
    · refine ih (acc ++ [k]) ?_
      simp [List.nodup_append, h, hk]

/-! ### Behaviour of one loop iteration -/

theorem processOne_idFail (st : PipeState) (f : EmlFile)
    (h : f.failAt = some FailStage.identity) : processOne st f = st := by
  simp [processOne, h]

theorem processOne_buildFail (st : PipeState) (f : EmlFile)
    (h : f.failAt = some FailStage.build) : processOne st f = st := by
  simp [processOne, h]

theorem processOne_skipSeen (st : PipeState) (f : EmlFile)
    (h : msgIdOf f ∈ st.seenMem) : processOne st f = st := by
  simp [processOne, h]

theorem processOne_run (st : PipeState) (f : EmlFile)
    (h1 : f.failAt ≠ some FailStage.identity) (h2 : msgIdOf f ∉ st.seenMem)
    (h3 : f.failAt ≠ some FailStage.build) :
    (processOne st f).latest = stepLatest st.latest (keyOf f) (entryOf f) ∧
    (processOne st f).seenMem = st.seenMem ++ [msgIdOf f] ∧
    (processOne st f).images = st.images ++ saveImgs f.msg.parts := by
  by_cases hp : f.failAt = some FailStage.persist
  · simp [processOne, h1, h2, h3, hp, keyOf, entryOf]
  · simp [processOne, h1, h2, h3, hp, keyOf, entryOf]

theorem processOne_ok (st : PipeState) (f : EmlFile)
    (h0 : f.failAt = none) (h2 : msgIdOf f ∉ st.seenMem) :
    processOne st f =
      { latest := stepLatest st.latest (keyOf f) (entryOf f),
        seenMem := st.seenMem ++ [msgIdOf f],
        seenFile := st.seenMem ++ [msgIdOf f],
        images := st.images ++ saveImgs f.msg.parts,
        count := st.count + 1 } := by
  simp [processOne, h0, h2, keyOf, entryOf]

theorem processOne_seen_cases (st : PipeState) (f : EmlFile) :
    (processOne st f).seenMem = st.seenMem ∨
    (processOne st f).seenMem = st.seenMem ++ [msgIdOf f] := by
  by_cases h1 : f.failAt = some FailStage.identity
  · left; rw [processOne_idFail st f h1]
  · by_cases h2 : msgIdOf f ∈ st.seenMem
    · left; rw [processOne_skipSeen st f h2]
    · by_cases h3 : f.failAt = some FailStage.build
      · left; rw [processOne_buildFail st f h3]
      · right; exact (processOne_run st f h1 h2 h3).2.1

/-! ### The run-level refinement lemmas -/

theorem processAll_lookup (files : List EmlFile) : ∀ (st : PipeState) (k : String),
    lookupA k (processAll st files).latest =
      (groupEntries k st.seenMem files).foldl specResolve (lookupA k st.latest) := by
  induction files with
  | nil => intro st k; simp [processAll, groupEntries, candFiles]
  | cons f fs ih =>
    intro st k
    have hfold : processAll st (f :: fs) = processAll (processOne st f) fs := rfl
    by_cases h1 : f.failAt = some FailStage.identity
    · rw [hfold, processOne_idFail st f h1]
      simp only [groupEntries, candFiles, if_pos h1]
      exact ih st k
    · by_cases h2 : msgIdOf f ∈ st.seenMem
      · rw [hfold, processOne_skipSeen st f h2]
        simp only [groupEntries, candFiles, if_neg h1, if_pos h2]
        exact ih st k
      · by_cases h3 : f.failAt = some FailStage.build
        · rw [hfold, processOne_buildFail st f h3]
          simp only [groupEntries, candFiles, if_neg h1, if_neg h2, if_pos h3]
          exact ih st k
        · obtain ⟨hl, hs, -⟩ := processOne_run st f h1 h2 h3
          rw [hfold, ih (processOne st f) k, hs, hl, stepLatest_lookup]
          by_cases hk : keyOf f = k
          · rw [if_pos hk.symm]
            simp only [groupEntries, candFiles, if_neg h1, if_neg h2, if_neg h3,
              List.filter_cons, hk]
            simp
          · rw [if_neg (fun h => hk h.symm)]
            simp only [groupEntries, candFiles, if_neg h1, if_neg h2, if_neg h3,
              List.filter_cons, hk]
            simp

theorem processAll_mapFst (files : List EmlFile) : ∀ st : PipeState,
    (processAll st files).latest.map Prod.fst =
      firstKeys (st.latest.map Prod.fst) ((candFiles st.seenMem files).map keyOf) := by
  induction files with
  | nil => intro st; simp [processAll, candFiles, firstKeys]
  | cons f fs ih =>
    intro st
    have hfold : processAll st (f :: fs) = processAll (processOne st f) fs := rfl
    by_cases h1 : f.failAt = some FailStage.identity
    · rw [hfold, processOne_idFail st f h1]
      simp only [candFiles, if_pos h1]
      exact ih st
    · by_cases h2 : msgIdOf f ∈ st.seenMem
      · rw [hfold, processOne_skipSeen st f h2]
        simp only [candFiles, if_neg h1, if_pos h2]
        exact ih st
      · by_cases h3 : f.failAt = some FailStage.build
        · rw [hfold, processOne_buildFail st f h3]
          simp only [candFiles, if_neg h1, if_neg h2, if_pos h3]
          exact ih st
        · obtain ⟨hl, hs, -⟩ := processOne_run st f h1 h2 h3
          rw [hfold, ih (processOne st f), hs, hl, stepLatest_mapFst]
          simp only [candFiles, if_neg h1, if_neg h2, if_neg h3, List.map_cons]
          by_cases hk : keyOf f ∈ st.latest.map Prod.fst
          · rw [if_pos hk]
            conv_rhs => rw [firstKeys]
            rw [if_pos hk]
          · rw [if_neg hk]
            conv_rhs => rw [firstKeys]
            rw [if_neg hk]

theorem processAll_seen_mono (files : List EmlFile) : ∀ (st : PipeState) (x : String),
    x ∈ st.seenMem → x ∈ (processAll st files).seenMem := by
  induction files with
  | nil => intro st x hx; exact hx
  | cons f fs ih =>
    intro st x hx
    have hfold : processAll st (f :: fs) = processAll (processOne st f) fs := rfl
    rw [hfold]
    refine ih (processOne st f) x ?_
    rcases processOne_seen_cases st f with h | h <;> rw [h]
    · exact hx
    · simp [hx]

theorem processAll_mid_mem (files : List EmlFile) : ∀ st : PipeState,
    (∀ f ∈ files, f.failAt = none) →
    ∀ f ∈ files, msgIdOf f ∈ (processAll st files).seenMem := by
  induction files with
  | nil => intro st _ f hf; cases hf
  | cons g fs ih =>
    intro st hnf f hf
    have hfold : processAll st (g :: fs) = processAll (processOne st g) fs := rfl
    rcases List.mem_cons.mp hf with hf | hf
    · subst hf
      rw [hfold]
      refine processAll_seen_mono fs (processOne st f) (msgIdOf f) ?_
      by_cases h2 : msgIdOf f ∈ st.seenMem
      · rw [processOne_skipSeen st f h2]; exact h2
      · have h0 : f.failAt = none := hnf f (by simp)
        rw [processOne_ok st f h0 h2]
        simp
    · exact ih (processOne st g) (fun x hx => hnf x (by simp [hx])) f hf

theorem processAll_seenFile_eq (files : List EmlFile) : ∀ st : PipeState,
    (∀ f ∈ files, f.failAt = none) → st.seenFile = st.seenMem →
    (processAll st files).seenFile = (processAll st files).seenMem := by
  induction files with
  | nil => intro st _ h; exact h
  | cons g fs ih =>
    intro st hnf h
    have hfold : processAll st (g :: fs) = processAll (processOne st g) fs := rfl
    rw [hfold]
    have h0 : g.failAt = none := hnf g (by simp)
    refine ih (processOne st g) (fun x hx => hnf x (by simp [hx])) ?_
    by_cases h2 : msgIdOf g ∈ st.seenMem
    · rw [processOne_skipSeen st g h2]; exact h
    · rw [processOne_ok st g h0 h2]

theorem processAll_allSkipped (files : List EmlFile) : ∀ st : PipeState,
    (∀ f ∈ files, msgIdOf f ∈ st.seenMem) → processAll st files = st := by
  induction files with
  | nil => intro st _; rfl
  | cons g fs ih =>
    intro st hmem
    have hfold : processAll st (g :: fs) = processAll (processOne st g) fs := rfl
    rw [hfold, processOne_skipSeen st g (hmem g (by simp))]
    exact ih st fun f hf => hmem f (by simp [hf])

/-! ### Characterisation of body extraction -/

theorem firstGood_ne_empty (ct : String) (parts : List EmailPart) (s : String)
    (h : firstGood ct parts = some s) : s ≠ "" := by
  induction parts with
  | nil => exact absurd h (by simp [firstGood])
  | cons p rest ih =>
    unfold firstGood at h
    split_ifs at h with hatt hct
    · exact ih h
    · rcases hp : p.textPayload with _ | t
      · rw [hp] at h; exact ih h
      · rw [hp] at h
        have h2 : (if t = "" then firstGood ct rest else some t) = some s := h
        by_cases ht : t = ""
        · rw [if_pos ht] at h2; exact ih h2
        · rw [if_neg ht] at h2
          cases h2; exact ht
    · exact ih h

theorem bodyScan_fst (parts : List EmailPart) : ∀ hb pb : String,
    (bodyScan hb pb parts).1 =
      if hb = "" then (firstGood "text/html" parts).getD "" else hb := by
  induction parts with
  | nil =>
    intro hb pb
    by_cases h : hb = "" <;> simp [bodyScan, firstGood, h]
  | cons p rest ih =>
    intro hb pb
    by_cases hatt : strContains (p.disposition.getD "None") "attachment" = true
    · simp only [bodyScan, if_pos hatt, firstGood, ih]
    · by_cases hct : p.ctype = "text/html"
      · by_cases hb0 : hb = ""
        · rcases hp : p.textPayload with _ | t
          · simp [bodyScan, hatt, hct, hb0, hp, firstGood, ih]
          · by_cases ht : t = ""
            · simp [bodyScan, hatt, hct, hb0, hp, ht, firstGood, ih]
            · simp [bodyScan, hatt, hct, hb0, hp, ht, firstGood, ih]
        · have hcp : ¬ p.ctype = "text/plain" := by simp [hct]
          simp [bodyScan, hatt, hct, hb0, hcp, firstGood, ih]
      · by_cases hcp : p.ctype = "text/plain" ∧ pb = ""
        · rcases hp : p.textPayload with _ | t
          · simp [bodyScan, hatt, hct, hcp, hp, firstGood, ih]
          · simp [bodyScan, hatt, hct, hcp, hp, firstGood, ih]
        · simp [bodyScan, hatt, hct, hcp, firstGood, ih]

theorem bodyScan_snd (parts : List EmailPart) : ∀ hb pb : String,
    (bodyScan hb pb parts).2 =
      if pb = "" then (firstGood "text/plain" parts).getD "" else pb := by
  induction parts with
  | nil =>
    intro hb pb
    by_cases h : pb = "" <;> simp [bodyScan, firstGood, h]
  | cons p rest ih =>
    intro hb pb
    by_cases hatt : strContains (p.disposition.getD "None") "attachment" = true
    · simp only [bodyScan, if_pos hatt, firstGood, ih]
    · by_cases hch : p.ctype = "text/html" ∧ hb = ""
      · have hcp : ¬ p.ctype = "text/plain" := by simp [hch.1]
        rcases hp : p.textPayload with _ | t
        · simp [bodyScan, hatt, hch, hp, firstGood, hcp, ih]
        · simp [bodyScan, hatt, hch, hp, firstGood, hcp, ih]
      · by_cases hcp : p.ctype = "text/plain"
        · by_cases hp0 : pb = ""
          · rcases hp : p.textPayload with _ | t
            · simp [bodyScan, hatt, hch, hcp, hp0, hp, firstGood, ih]
            · by_cases ht : t = ""
              · simp [bodyScan, hatt, hch, hcp, hp0, hp, ht, firstGood, ih]
              · simp [bodyScan, hatt, hch, hcp, hp0, hp, ht, firstGood, ih]
          · simp [bodyScan, hatt, hch, hcp, hp0, firstGood, ih]
        · simp [bodyScan, hatt, hch, hcp, firstGood, ih]

theorem bodyOf_spec (m : EmailMsg) : bodyOf m = specBody m.parts := by
  simp only [bodyOf, specBody, bodyScan_fst m.parts "" "", bodyScan_snd m.parts "" ""]
  rcases hh : firstGood "text/html" m.parts with _ | s
  · simp
  · have hs : s ≠ "" := firstGood_ne_empty _ _ _ hh
    simp [hs]

/-! ### Characterisation of image saving -/

theorem saveImgs_eq_filterMap (parts : List EmailPart) :
    saveImgs parts = parts.filterMap imgKeep := by
  induction parts with
  | nil => rfl
  | cons p rest ih =>
    by_cases hi : maintypeOf p.ctype = "image"
    · rcases hp : p.bytesPayload with _ | d
      · simp [saveImgs, imgKeep, hi, hp, List.filterMap_cons, ih]
      · by_cases hd : d = []
        · simp [saveImgs, imgKeep, hi, hp, hd, List.filterMap_cons, ih]
        · simp [saveImgs, imgKeep, hi, hp, hd, List.filterMap_cons, ih]
    · simp [saveImgs, imgKeep, hi, List.filterMap_cons, ih]

theorem parsePyInt_empty : parsePyInt "" = none := rfl

theorem replacePxS_empty : replacePxS "" = "" := rfl

/-! ### The claims -/

/-- C1: messages of one run whose subjects agree after normalization
(single marker strip, casefold, trim) share a dedup group key; per key
the surviving entry is the fold of the resolution policy in which a
strictly greater parsed timestamp replaces the retained candidate and the
first encountered wins exact ties; the surviving keys are pairwise
distinct, so exactly one offer per group survives; and an unparseable or
missing date is the minimum timestamp, strictly below every valid one. -/
theorem claim1_dedup_group (files : List EmlFile) (ledger : List String) :
    (∀ f g : EmlFile, cleanSubj (subjOf f) = cleanSubj (subjOf g) ↔ keyOf f = keyOf g) ∧
    (∀ k : String,
      lookupA k (runPipeline files ledger).latest =
        (groupEntries k ledger files).foldl specResolve none) ∧
    ((runPipeline files ledger).latest.map Prod.fst).Nodup ∧
    (∀ d : Nat, asDt none < asDt (some d)) := by
  refine ⟨fun f g => Iff.rfl, ?_, ?_, fun d => Nat.succ_pos d⟩
  · intro k
    have h := processAll_lookup files ⟨[], ledger, ledger, [], 0⟩ k
    simpa [runPipeline, lookupA] using h
  · have h := processAll_mapFst files ⟨[], ledger, ledger, [], 0⟩
    rw [show runPipeline files ledger = processAll ⟨[], ledger, ledger, [], 0⟩ files from rfl, h]
    exact firstKeys_nodup _ _ (by simp)

/-- C2: a second run over an unchanged source set, seeded with the seen
ledger persisted by a first failure-free run, finds every identity in the
ledger, skips every message, builds no candidate, writes no image, and
produces no output artifact. -/
theorem claim2_idempotent (files : List EmlFile) (ledger : List String)
    (hnf : ∀ f ∈ files, f.failAt = none) :
    (∀ f ∈ files, msgIdOf f ∈ (runPipeline files ledger).seenFile) ∧
    runPipeline files (runPipeline files ledger).seenFile =
      { latest := [], seenMem := (runPipeline files ledger).seenFile,
        seenFile := (runPipeline files ledger).seenFile, images := [], count := 0 } ∧
    outputOf (runPipeline files (runPipeline files ledger).seenFile) = none := by
  have hfe : (runPipeline files ledger).seenFile = (runPipeline files ledger).seenMem :=
    processAll_seenFile_eq files ⟨[], ledger, ledger, [], 0⟩ hnf rfl
  have hmem : ∀ f ∈ files, msgIdOf f ∈ (runPipeline files ledger).seenFile := by
    intro f hf
    rw [hfe]
    exact processAll_mid_mem files ⟨[], ledger, ledger, [], 0⟩ hnf f hf
  have hrun2 : runPipeline files (runPipeline files ledger).seenFile =
      { latest := [], seenMem := (runPipeline files ledger).seenFile,
        seenFile := (runPipeline files ledger).seenFile, images := [], count := 0 } :=
    processAll_allSkipped files _ (fun f hf => hmem f hf)
  refine ⟨hmem, hrun2, ?_⟩
  rw [hrun2]
  rfl

/-- C2 witness at a concrete one-file source set. -/
theorem claim2_witness :
    (∀ f ∈ [sampleFile], f.failAt = none) ∧
    (∀ f ∈ [sampleFile], msgIdOf f ∈ (runPipeline [sampleFile] []).seenFile) ∧
    outputOf (runPipeline [sampleFile] (runPipeline [sampleFile] []).seenFile) = none := by
  have hnf : ∀ f ∈ [sampleFile], f.failAt = none := by decide
  exact ⟨hnf, (claim2_idempotent [sampleFile] [] hnf).1,
    (claim2_idempotent [sampleFile] [] hnf).2.2⟩

/-- C3 (amended): the identity is the Message-ID header when that header
is present with a nonempty value; when the header is absent or empty the
identity is the angle-bracketed MD5 of the raw file bytes, a pure
function of those bytes. -/
theorem claim3_identity (f g : EmlFile) :
    (∀ s : String, f.msg.messageId = some s → s ≠ "" → msgIdOf f = s) ∧
    ((f.msg.messageId = none ∨ f.msg.messageId = some "") →
      msgIdOf f = "<" ++ md5Hex f.rawBytes ++ ">") ∧
    (f.msg.messageId = none → g.msg.messageId = none → f.rawBytes = g.rawBytes →
      msgIdOf f = msgIdOf g) := by
  refine ⟨?_, ?_, ?_⟩
  · intro s hs hne
    simp [msgIdOf, hs, hne]
  · rintro (h | h) <;> simp [msgIdOf, h]
  · intro hf hg hb
    simp [msgIdOf, hf, hg, hb]

/-- C3 witness: both branches at concrete messages. -/
theorem claim3_witness :
    msgIdOf sampleFile = "<id1@x>" ∧
    msgIdOf noIdFile = "<" ++ md5Hex [1, 2, 3] ++ ">" :=
  ⟨(claim3_identity sampleFile sampleFile).1 "<id1@x>" rfl (by decide),
   (claim3_identity noIdFile noIdFile).2.1 (Or.inl rfl)⟩

/-- C3 counterexample to the claim as stated: a present but empty
Message-ID header does not become the identity; the code falls back to
the hash because the header value is falsy. -/
theorem claim3_counterexample :
    emptyIdFile.msg.messageId = some "" ∧ msgIdOf emptyIdFile ≠ "" :=
  ⟨rfl, by decide⟩

/-- C4 (amended): with both attribute values parseable after removing px
occurrences, the dimension check discards exactly when at least one
dimension is below the minimum size; an absent attribute defaults to 999;
a present but unparseable value aborts the check without discarding, and
no error is raised. -/
theorem claim4_dimension (w h : String) (wo ho : Option String) (a b : Int) :
    (parsePyInt (replacePxS w) = some a → parsePyInt (replacePxS h) = some b →
      (dimensionDiscard (some w) (some h) = true ↔
        a < MINIMUM_IMAGE_SIZE ∨ b < MINIMUM_IMAGE_SIZE)) ∧
    (replacePxS w ≠ "" → parsePyInt (replacePxS w) = none →
      dimensionDiscard (some w) ho = false) ∧
    (replacePxS h ≠ "" → parsePyInt (replacePxS h) = none →
      dimensionDiscard wo (some h) = false) ∧
    (parsePyInt (replacePxS h) = some b →
      (dimensionDiscard none (some h) = true ↔ b < MINIMUM_IMAGE_SIZE)) ∧
    (parsePyInt (replacePxS w) = some a →
      (dimensionDiscard (some w) none = true ↔ a < MINIMUM_IMAGE_SIZE)) := by
  have hne : ∀ s : String, ∀ x : Int, parsePyInt (replacePxS s) = some x →
      replacePxS s ≠ "" := by
    intro s x hx h0
    rw [h0, parsePyInt_empty] at hx
    exact Option.noConfusion hx
  refine ⟨?_, ?_, ?_, ?_, ?_⟩
  · intro ha hb
    simp [dimensionDiscard, hne w a ha, hne h b hb, ha, hb, MINIMUM_IMAGE_SIZE]
  · intro h0 hn
    rcases ho with _ | hs <;> simp [dimensionDiscard, h0, hn]
  · intro h0 hn
    rcases wo with _ | ws
    · simp [dimensionDiscard, replacePxS_empty, h0, hn]
    · simp only [dimensionDiscard]
      by_cases hw0 : replacePxS ws = ""
      · simp [hw0, h0, hn]
      · rcases hpw : parsePyInt (replacePxS ws) with _ | wv <;>
          simp [hw0, hpw, h0, hn]
  · intro hb
    simp [dimensionDiscard, replacePxS_empty, hne h b hb, hb, MINIMUM_IMAGE_SIZE]
  · intro ha
    simp [dimensionDiscard, replacePxS_empty, hne w a ha, ha, MINIMUM_IMAGE_SIZE]

/-- C4 witness: both dimensions parse on concrete attributes. -/
theorem claim4_witness :
    dimensionDiscard (some "10") (some "400") = true ↔
      (10 : Int) < MINIMUM_IMAGE_SIZE ∨ (400 : Int) < MINIMUM_IMAGE_SIZE :=
  (claim4_dimension "10" "400" none none 10 400).1 (by decide) (by decide)

/-- C4 counterexample to the claim as stated: the check discards an image
whose declared dimensions are 10 by 400, although the two dimensions are
not both below the minimum size; the code tests the dimensions with a
disjunction, not a conjunction. -/
theorem claim4_counterexample :
    dimensionDiscard (some "10") (some "400") = true ∧
    ¬((10 : Int) < MINIMUM_IMAGE_SIZE ∧ (400 : Int) < MINIMUM_IMAGE_SIZE) := by
  decide

/-- C5 (amended): the canonical body is the markup-stripped text of the
first text/html part that decodes to a nonempty string, else the first
text/plain part that decodes to a nonempty string, else empty; per-part
decode failures only skip that part; the offer record carries the
canonical body as its description, and a message with neither body gets
an empty description rather than a failure. -/
theorem claim5_body (m : EmailMsg) (f : EmlFile) (mid : String) :
    bodyOf m = specBody m.parts ∧
    (buildOffer f mid).product_description = bodyOf f.msg ∧
    (firstGood "text/html" m.parts = none → firstGood "text/plain" m.parts = none →
      bodyOf m = "") := by
  refine ⟨bodyOf_spec m, rfl, ?_⟩
  intro hh hp
  rw [bodyOf_spec m]
  simp [specBody, hh, hp]

/-- C5 witness: a message with no parts yields the empty body. -/
theorem claim5_witness : bodyOf noIdMsg = "" :=
  (claim5_body noIdMsg sampleFile "x").2.2 rfl rfl

/-- C5 counterexample to the claim as stated: the first text/html part of
this message decodes successfully to the empty string, so the claim makes
the canonical body empty, but the code keeps scanning and returns the
plain-text body instead. -/
theorem claim5_counterexample :
    (cex5Msg.parts.map EmailPart.textPayload = [some "", some "hello"]) ∧
    bodyOf cex5Msg = "hello" ∧ getText "" = "" := by
  refine ⟨rfl, by decide, rfl⟩

/-- C6: field extraction is first-match with empty-string misses: the
boundary text yields the stated price, FOB location and quantity, texts
without matches yield empty strings, and a failed search always gives the
empty string for each of the three fields. -/
theorem claim6_field_extraction :
    (mPrice "Price: $1,250.00 FOB Los Angeles, 5000 sqft available" = "1,250.00" ∧
     mFob "Price: $1,250.00 FOB Los Angeles, 5000 sqft available" = "Los Angeles" ∧
     mQty "Price: $1,250.00 FOB Los Angeles, 5000 sqft available" = "5000" ∧
     strContains (mFob "Price: $1,250.00 FOB Los Angeles, 5000 sqft available")
       "Los Angeles" = true ∧
     strContains (mQty "Price: $1,250.00 FOB Los Angeles, 5000 sqft available")
       "5000" = true) ∧
    (mPrice "no currency here" = "" ∧ mQty "no amount here" = "" ∧
     mFob "no shipping marker" = "") ∧
    (∀ t : String, priceSearchL t.data = none → mPrice t = "") ∧
    (∀ t : String, qtySearchL t.data = none → mQty t = "") ∧
    (∀ t : String, fobSearchAux none t.data = none → mFob t = "") := by
  refine ⟨by decide, by decide, ?_, ?_, ?_⟩
  · intro t ht; simp [mPrice, ht]
  · intro t ht; simp [mQty, ht]
  · intro t ht; simp [mFob, ht]

/-- C6 witness: the no-match branches at the empty text. -/
theorem claim6_witness : mPrice "" = "" ∧ mQty "" = "" ∧ mFob "" = "" :=
  ⟨claim6_field_extraction.2.2.1 "" rfl,
   claim6_field_extraction.2.2.2.1 "" rfl,
   claim6_field_extraction.2.2.2.2 "" rfl⟩

/-- C7: the category is decided by a case-insensitive keyword scan over
the subject-body concatenation in the fixed priority order SPC, LVT,
Laminate, Tile, Solid-and-Hardwood, Other, first match winning. -/
theorem claim7_category (sub body : String) :
    (strContains (lowerS (sub ++ " " ++ body)) "spc" = true →
      catOf sub body = "SPC Flooring") ∧
    (strContains (lowerS (sub ++ " " ++ body)) "spc" = false →
      strContains (lowerS (sub ++ " " ++ body)) "lvt" = true →
      catOf sub body = "LVT Flooring") ∧
    (strContains (lowerS (sub ++ " " ++ body)) "spc" = false →
      strContains (lowerS (sub ++ " " ++ body)) "lvt" = false →
      strContains (lowerS (sub ++ " " ++ body)) "laminate" = true →
      catOf sub body = "Laminate Flooring") ∧
    (strContains (lowerS (sub ++ " " ++ body)) "spc" = false →
      strContains (lowerS (sub ++ " " ++ body)) "lvt" = false →
      strContains (lowerS (sub ++ " " ++ body)) "laminate" = false →
      strContains (lowerS (sub ++ " " ++ body)) "tile" = true →
      catOf sub body = "Tile") ∧
    (strContains (lowerS (sub ++ " " ++ body)) "spc" = false →
      strContains (lowerS (sub ++ " " ++ body)) "lvt" = false →
      strContains (lowerS (sub ++ " " ++ body)) "laminate" = false →
      strContains (lowerS (sub ++ " " ++ body)) "tile" = false →
      strContains (lowerS (sub ++ " " ++ body)) "solid" = true →
      strContains (lowerS (sub ++ " " ++ body)) "hardwood" = true →
      catOf sub body = "Solid Hardwood") ∧
    (strContains (lowerS (sub ++ " " ++ body)) "spc" = false →
      strContains (lowerS (sub ++ " " ++ body)) "lvt" = false →
      strContains (lowerS (sub ++ " " ++ body)) "laminate" = false →
      strContains (lowerS (sub ++ " " ++ body)) "tile" = false →
      (strContains (lowerS (sub ++ " " ++ body)) "solid" &&
        strContains (lowerS (sub ++ " " ++ body)) "hardwood") = false →
      catOf sub body = "Other") := by
  refine ⟨?_, ?_, ?_, ?_, ?_, ?_⟩
  · intro h1; simp [catOf, h1]
  · intro h1 h2; simp [catOf, h1, h2]
  · intro h1 h2 h3; simp [catOf, h1, h2, h3]
  · intro h1 h2 h3 h4; simp [catOf, h1, h2, h3, h4]
  · intro h1 h2 h3 h4 h5 h6; simp [catOf, h1, h2, h3, h4, h5, h6]
  · intro h1 h2 h3 h4 h5; simp [catOf, h1, h2, h3, h4, h5]

/-- C7 witness: the priority example with both spc and tile present, and
the default branch. -/
theorem claim7_witness :
    catOf "subject" "both spc and tile today" = "SPC Flooring" ∧
    catOf "plain" "no keywords at all" = "Other" :=
  ⟨(claim7_category "subject" "both spc and tile today").1 (by decide),
   (claim7_category "plain" "no keywords at all").2.2.2.2.2
     (by decide) (by decide) (by decide) (by decide) (by decide)⟩

/-- C8: the run output contains one record per surviving key, the keys
are pairwise distinct and appear in order of first appearance during the
scan, so replacement of a retained offer never moves its key. -/
theorem claim8_output_order (files : List EmlFile) (ledger : List String) :
    (runPipeline files ledger).latest.map Prod.fst =
      firstKeys [] ((candFiles ledger files).map keyOf) ∧
    ((runPipeline files ledger).latest.map Prod.fst).Nodup ∧
    outputOf (runPipeline files ledger) =
      (if (runPipeline files ledger).latest.isEmpty then none
       else some ((runPipeline files ledger).latest.map (fun kv => kv.2.offer))) := by
  have h := processAll_mapFst files ⟨[], ledger, ledger, [], 0⟩
  refine ⟨?_, ?_, rfl⟩
  · simpa [runPipeline] using h
  · rw [show runPipeline files ledger = processAll ⟨[], ledger, ledger, [], 0⟩ files from rfl, h]
    exact firstKeys_nodup _ _ (by simp)

/-- C9 (amended): saved filenames are exactly the derived names of the
image parts with nonempty decoded payloads, in part order; a part with
no decodable payload is skipped without error; the name is the stripped
Content-ID plus the guessed extension when the stripped Content-ID is
nonempty, else the hash-based name; and the name is a pure function of
Content-ID, bytes and declared content type. -/
theorem claim9_images (parts : List EmailPart) (p q : EmailPart) (d e : List Nat) :
    (saveImgs parts = parts.filterMap imgKeep) ∧
    (maintypeOf p.ctype = "image" → p.bytesPayload = some d → d ≠ [] →
      imgKeep p = some (imgFilename p d)) ∧
    (p.bytesPayload = none → imgKeep p = none) ∧
    (stripAngles (p.contentId.getD "") ≠ "" →
      imgFilename p d =
        stripAngles (p.contentId.getD "") ++ (guessExtension p.ctype).getD ".bin") ∧
    (stripAngles (p.contentId.getD "") = "" →
      imgFilename p d = "img_" ++ md5Hex d ++ (guessExtension p.ctype).getD ".bin") ∧
    (p.contentId = q.contentId → p.ctype = q.ctype → d = e →
      imgFilename p d = imgFilename q e) := by
  refine ⟨saveImgs_eq_filterMap parts, ?_, ?_, ?_, ?_, ?_⟩
  · intro hi hp hd
    simp [imgKeep, hi, hp, hd]
  · intro hp
    simp [imgKeep, hp]
  · intro hc
    simp [imgFilename, hc]
  · intro hc
    simp [imgFilename, hc]
  · intro h1 h2 h3
    simp [imgFilename, h1, h2, h3]

/-- C9 witness: a part with a real Content-ID keeps the CID-based name. -/
theorem claim9_witness :
    imgKeep cidPart = some (imgFilename cidPart [5]) ∧
    imgFilename cidPart [5] = "c1@x" ++ ".png" := by
  refine ⟨(claim9_images [] cidPart cidPart [5] [5]).2.1 rfl rfl (by decide), ?_⟩
  have h := (claim9_images [] cidPart cidPart [5] [5]).2.2.2.1 (by decide)
  rw [h]
  decide

/-- C9 counterexample to the claim as stated: a present Content-ID that
strips to the empty string does not name the file; the code falls back to
the hash-based name. -/
theorem claim9_counterexample :
    cex9Part.contentId = some "<>" ∧
    saveImgs [cex9Part] = ["img_" ++ md5Hex [1] ++ ".gif"] ∧
    stripAngles "<>" ++ ".gif" ≠ "img_" ++ md5Hex [1] ++ ".gif" := by
  refine ⟨rfl, rfl, by decide⟩

/-- C10: an exception before the candidate-map insertion (identity stage
or build stage) leaves the candidate map, the in-memory seen set, the
persisted ledger, the image list and the counter unchanged; the run
continues with the remaining files; and the identity stays unseen, so the
message is considered again later. -/
theorem claim10_failure_isolation (st : PipeState) (f : EmlFile) (fs : List EmlFile)
    (h : f.failAt = some FailStage.identity ∨ f.failAt = some FailStage.build) :
    processOne st f = st ∧
    processAll st (f :: fs) = processAll st fs ∧
    (msgIdOf f ∉ st.seenMem → msgIdOf f ∉ (processOne st f).seenMem) := by
  have h0 : processOne st f = st := by
    rcases h with h | h
    · exact processOne_idFail st f h
    · exact processOne_buildFail st f h
  refine ⟨h0, ?_, fun hm => by rw [h0]; exact hm⟩
  rw [show processAll st (f :: fs) = processAll (processOne st f) fs from rfl, h0]

/-- C10 witness: a concrete build-stage failure is a no-op. -/
theorem claim10_witness :
    (failFile.failAt = some FailStage.identity ∨ failFile.failAt = some FailStage.build) ∧
    processOne emptyState failFile = emptyState :=
  ⟨Or.inr rfl, (claim10_failure_isolation emptyState failFile [] (Or.inr rfl)).1⟩

end LeadBringer
